import Mathlib

/-!
Shallow embedding of the benchmark harness in
`src/lab01/university_db_performance.py` (class `UniversityDBPerformance`),
together with proofs about the Query Timer, the Schema Manager, the
Synthetic Data Generator and the Benchmark Orchestrator.

Wall-clock times are modelled as exact rationals (milliseconds); the
outcome of each database interaction is supplied by an oracle function, so
every theorem quantifies over all possible behaviours of the external
store.
-/

namespace UniversityDB

/-! ## Query Timer (`time_query`, lines 361-401)

One trial of `time_query` either completes, yielding a measured wall-clock
latency in milliseconds, or raises an exception whose message may or may
not look like a timeout (`"timeout" in str(e).lower()`). -/

/-- Outcome of one timed trial of `time_query`. -/
inductive TrialOutcome where
  | success (ms : ℚ)
  | failure (isTimeout : Bool)
deriving DecidableEq

/-- The value `time_query` appends to `times` for a trial: the measured
latency on success, `300000` for a timeout-like failure, `60000` for any
other failure (lines 377, 390, 392). -/
def trialValue : TrialOutcome → ℚ
  | .success ms => ms
  | .failure true => 300000
  | .failure false => 60000

/-- The trials the `for i in range(runs)` loop of `time_query` actually
executes, given the outcome `outcomes i` of trial `i`: a successful trial
whose latency exceeds `120000` ms breaks out of the loop (lines 382-384),
and any failing trial breaks out of the loop (line 393). -/
def executedTrials (outcomes : ℕ → TrialOutcome) : ℕ → ℕ → List TrialOutcome
  | _, 0 => []
  | i, fuel + 1 =>
    match outcomes i with
    | .success ms =>
      if 120000 < ms then [.success ms]
      else .success ms :: executedTrials outcomes (i + 1) fuel
    | .failure b => [.failure b]

/-- The `times` list accumulated by the loop of `time_query`
(lines 363-393): one appended value per executed trial. -/
def timeQueryTimes (outcomes : ℕ → TrialOutcome) : ℕ → ℕ → List ℚ
  | _, 0 => []
  | i, fuel + 1 =>
    match outcomes i with
    | .success ms =>
      if 120000 < ms then [ms]
      else ms :: timeQueryTimes outcomes (i + 1) fuel
    | .failure b => [if b then 300000 else 60000]

/-- `time_query` (lines 361-401): run up to `runs` trials, then return the
average of `times` if non-empty, else the `60000` fallback. -/
def time_query (outcomes : ℕ → TrialOutcome) (runs : ℕ) : ℚ :=
  let times := timeQueryTimes outcomes 0 runs
  if times = [] then 60000 else times.sum / times.length

/-- The measured latencies of the trials that ran to completion
(succeeded), as the spec's phrase "completed trials" reads. -/
def completedLatencies (outcomes : ℕ → TrialOutcome) (runs : ℕ) : List ℚ :=
  (executedTrials outcomes 0 runs).filterMap fun t =>
    match t with
    | .success ms => some ms
    | .failure _ => none

/-- The arithmetic mean used by `time_query` (`sum(times) / len(times)`). -/
def listMean (l : List ℚ) : ℚ := l.sum / l.length

/-! ## Schema Manager (`clear_tables`, lines 132-146)

The store session is modelled as the committed state plus the pending
in-transaction state; row contents are abstracted to opaque ids. -/

/-- Rows of the five tables of the schema (lines 82-121). -/
structure TableData where
  enrollments : List ℕ
  students : List ℕ
  courses : List ℕ
  teachers : List ℕ
  departments : List ℕ
deriving DecidableEq

/-- A single psycopg2 session with autocommit disabled: the state visible
after the last COMMIT, and the pending in-transaction state. -/
structure DBState where
  committed : TableData
  pending : TableData
deriving DecidableEq

/-- `connection.commit()`. -/
def commitTx (db : DBState) : DBState :=
  { committed := db.pending, pending := db.pending }

/-- `connection.rollback()`. -/
def rollbackTx (db : DBState) : DBState :=
  { db with pending := db.committed }

/-- `TRUNCATE TABLE <name> RESTART IDENTITY CASCADE` acting on the pending
transaction state (line 140). -/
def truncateTable (d : TableData) : String → TableData
  | "enrollments" => { d with enrollments := [] }
  | "students" => { d with students := [] }
  | "courses" => { d with courses := [] }
  | "teachers" => { d with teachers := [] }
  | "departments" => { d with departments := [] }
  | _ => d

/-- The table list of `clear_tables` (line 138), in dependency order. -/
def clearOrder : List String :=
  ["enrollments", "students", "courses", "teachers", "departments"]

/-- The TRUNCATE loop of `clear_tables` (lines 139-146): `fails t` says
whether the TRUNCATE statement for table `t` raises. On the first failure
the except branch rolls back and re-raises (second component `false`);
after the last table the transaction is committed. -/
def clearLoop (fails : String → Bool) (db : DBState) : List String → DBState × Bool
  | [] => (commitTx db, true)
  | t :: ts =>
    if fails t then (rollbackTx db, false)
    else clearLoop fails { db with pending := truncateTable db.pending t } ts

/-- `clear_tables` (lines 132-146): roll back any failed transaction
first (line 136), then truncate every table in dependency order and
commit; on error roll back and re-raise. -/
def clear_tables (fails : String → Bool) (db : DBState) : DBState × Bool :=
  clearLoop fails (rollbackTx db) clearOrder

/-! ## Benchmark result store and the PHASE1 loop (`main`, lines 740-757)

`self.results['without_indexes']` / `['with_indexes']` are modelled as
association lists from the scale number of the `"scale_<n>"` key to the
list of five per-query timings. -/

/-- Python dict assignment `m[s] = ts`: replace the value if the key is
present, else append the new binding. -/
def setKey (m : List (ℕ × List ℚ)) (s : ℕ) (ts : List ℚ) : List (ℕ × List ℚ) :=
  match m with
  | [] => [(s, ts)]
  | (k, v) :: rest => if k = s then (s, ts) :: rest else (k, v) :: setKey rest s ts

/-- Python dict lookup `m.get(s)`. -/
def getKey (m : List (ℕ × List ℚ)) (s : ℕ) : Option (List ℚ) :=
  match m with
  | [] => none
  | (k, v) :: rest => if k = s then some v else getKey rest s

/-- The in-memory results dictionary (lines 33-36). -/
structure Results where
  without_indexes : List (ℕ × List ℚ)
  with_indexes : List (ℕ × List ℚ)
deriving DecidableEq

/-- The results at startup when no `progress.json` exists (lines 33-39). -/
def emptyResults : Results := { without_indexes := [], with_indexes := [] }

/-- What one PHASE1 iteration's `generate_data` + `run_performance_tests`
call did: succeeded with five timings and a committed generated table
state, or raised somewhere with some pending state left in-flight. -/
inductive ScaleOutcome where
  | ok (times : List ℚ) (data : TableData)
  | err (leftPending : TableData)

/-- The body of PHASE1's `for i, scale in enumerate(scales)` loop with its
try/except (lines 745-757): on success `run_performance_tests` assigns the
five timings to the scale's key (lines 464-469) and the generated data is
committed; on failure the except branch rolls back the in-flight
transaction, stores nothing, and the loop continues. -/
def phase1Step (st : Results × DBState) (s : ℕ) (out : ScaleOutcome) : Results × DBState :=
  match out with
  | .ok ts d =>
    ({ st.1 with without_indexes := setKey st.1.without_indexes s ts },
     { committed := d, pending := d })
  | .err t => (st.1, rollbackTx { st.2 with pending := t })

/-- The PHASE1 scale list (line 736). -/
def phase1Scales : List ℕ := [1, 2, 3, 4]

/-- The PHASE1 loop of `main` (lines 740-757), the outcome of each scale's
generation-and-timing being supplied by `oracle`. -/
def phase1 (oracle : ℕ → ScaleOutcome) (st : Results × DBState) : Results × DBState :=
  phase1Scales.foldl (fun st s => phase1Step st s (oracle s)) st

/-! ## `create_indexes` (lines 473-504) -/

/-- The names of the six indexes created by `create_indexes`
(lines 478-494). -/
def indexNames : List String :=
  ["idx_students_enrollment_date",
   "idx_enrollments_course_student",
   "idx_courses_teacher_id",
   "idx_courses_name_teacher",
   "idx_teachers_department_id",
   "idx_enrollments_semester_student_grade"]

/-- `CREATE INDEX IF NOT EXISTS <n> ON ...` acting on the set of index
names present: a no-op, and no error, when the index already exists. -/
def createIndexIfNotExists (present : List String) (n : String) : List String :=
  if n ∈ present then present else present ++ [n]

/-- `create_indexes` (lines 473-504): issue the six
`CREATE INDEX IF NOT EXISTS` statements in order, each independently
best-effort. -/
def create_indexes (present : List String) : List String :=
  indexNames.foldl createIndexIfNotExists present

/-! ## Synthetic Data Generator
(`generate_students_and_enrollments`, lines 269-333)

Python's `random` calls are modelled on oracle streams of naturals: each
call reduces an arbitrary natural to the library call's documented
range. -/

/-- `random.randint(a, b)`: a value in the inclusive range `[a, b]`. -/
def randint (a b seed : ℕ) : ℕ := a + seed % (b - a + 1)

/-- `random.choice(l)` for the non-empty lists the script applies it to
(with a default for the empty list). -/
def choiceD (l : List String) (seed : ℕ) : String := l.getD (seed % l.length) ""

/-- `random.sample(population, k)`: `k` draws without replacement — each
draw removes the chosen element from the remaining population; `j`
indexes the oracle stream. -/
def sampleGo (seedStream : ℕ → ℕ) : List ℕ → ℕ → ℕ → List ℕ
  | _, 0, _ => []
  | pop, k + 1, j =>
    if pop.length = 0 then []
    else
      pop.getD (seedStream j % pop.length) 0 ::
        sampleGo seedStream (pop.eraseIdx (seedStream j % pop.length)) k (j + 1)

/-- `random.sample(pop, k)`. -/
def sample (pop : List ℕ) (k : ℕ) (seedStream : ℕ → ℕ) : List ℕ :=
  sampleGo seedStream pop k 0

/-- The fixed semester list (line 275). -/
def semesters : List String :=
  ["Fall 2023", "Spring 2024", "Fall 2024", "Spring 2025"]

/-- One row of `enrollments_data` (line 320). -/
structure Enrollment where
  student_id : ℕ
  course_id : ℕ
  semester : String
  grade : ℕ
deriving DecidableEq

/-- The inner `for course_id in selected_courses` loop (lines 317-320):
one enrollment row per selected course, with a random semester from the
fixed list and a random grade from `randint(0, 100)`. -/
def enrollRows (sid : ℕ) (semSeed gradeSeed : ℕ → ℕ) : List ℕ → ℕ → List Enrollment
  | [], _ => []
  | c :: cs, j =>
    { student_id := sid, course_id := c,
      semester := choiceD semesters (semSeed j),
      grade := randint 0 100 (gradeSeed j) } :: enrollRows sid semSeed gradeSeed cs (j + 1)

/-- Lines 312-320 for one student of the batch: enroll in
`num_enrollments = randint(5, 10)` courses sampled without replacement
from `course_ids`. -/
def studentEnrollments (course_ids : List ℕ) (sid kSeed : ℕ)
    (sampleSeed semSeed gradeSeed : ℕ → ℕ) : List Enrollment :=
  enrollRows sid semSeed gradeSeed
    (sample course_ids (randint 5 10 kSeed) sampleSeed) 0

/-! ## Student emails (lines 281-300)

Line 289 builds
`email = f"{first_name.lower()}.{last_name.lower()}.{i}@student.university.edu"`,
where `i` ranges over `range(batch_start, batch_end)` for the batches
`batch_start in range(0, num_students, 1000)`,
`batch_end = min(batch_start + 1000, num_students)`. -/

/-- The decimal digit characters of `n`, most significant first: the model
of Python's `str(i)` for a non-negative `i`. -/
def decimalRender (n : ℕ) : List Char :=
  if _ : n < 10 then [Char.ofNat (48 + n)]
  else decimalRender (n / 10) ++ [Char.ofNat (48 + n % 10)]
decreasing_by exact Nat.div_lt_self (by omega) (by omega)

/-- Python `str(i)`. -/
def natStr (n : ℕ) : String := String.mk (decimalRender n)

/-- The email f-string of line 289; `first` and `last` stand for the
already-lowercased faker names. -/
def studentEmail (first last : String) (i : ℕ) : String :=
  first ++ "." ++ last ++ "." ++ natStr i ++ "@student.university.edu"

/-- The sequence numbers `i` the batch loop runs through, from
`batch_start` on: `range(batch_start, min(batch_start + 1000, num))`
followed by the later batches. -/
def batchSeqNums (start num : ℕ) : List ℕ :=
  if _ : start < num then
    List.range' start (min (start + 1000) num - start) ++ batchSeqNums (start + 1000) num
  else []
termination_by num - start
decreasing_by omega

/-- All sequence numbers of one `generate_students_and_enrollments(num)`
call, in generation order across batches. -/
def studentSeqNums (num : ℕ) : List ℕ := batchSeqNums 0 num

/-- The emails of one `generate_students_and_enrollments(num)` call, with
arbitrary lowercased faker names `firstN i` and `lastN i`. -/
def studentEmails (firstN lastN : ℕ → String) (num : ℕ) : List String :=
  (studentSeqNums num).map fun i => studentEmail (firstN i) (lastN i) i

/-- Value of a decimal digit string, most significant digit first. -/
def parseDigits (cs : List Char) : ℕ :=
  cs.foldl (fun acc c => acc * 10 + (c.toNat - 48)) 0

/-- Recover the embedded sequence number from an email: drop the
23-character `@student.university.edu` suffix, then read the trailing run
of digit characters. -/
def seqOfEmail (e : String) : ℕ :=
  parseDigits (((e.data.reverse.drop 23).takeWhile Char.isDigit).reverse)

theorem timeQueryTimes_eq_map (outcomes : ℕ → TrialOutcome) :
    ∀ i fuel, timeQueryTimes outcomes i fuel =
      (executedTrials outcomes i fuel).map trialValue := by
  intro i fuel
  induction fuel generalizing i with
  | zero => rfl
  | succ n ih =>
    simp only [timeQueryTimes, executedTrials]
    cases h : outcomes i with
    | success ms =>
      by_cases hms : 120000 < ms
      · simp [hms, trialValue]
      · simp [hms, trialValue, ih]
    | failure b => cases b <;> simp [trialValue]

theorem executedTrials_ne_nil (outcomes : ℕ → TrialOutcome) (i fuel : ℕ)
    (h : 1 ≤ fuel) : executedTrials outcomes i fuel ≠ [] := by
  obtain ⟨n, rfl⟩ := Nat.exists_eq_add_of_le h
  simp only [Nat.add_comm, executedTrials]
  cases outcomes i with
  | success ms =>
    by_cases hms : 120000 < ms <;> simp [hms]
  | failure b => simp

theorem timeQueryTimes_ne_nil (outcomes : ℕ → TrialOutcome) (i fuel : ℕ)
    (h : 1 ≤ fuel) : timeQueryTimes outcomes i fuel ≠ [] := by
  rw [timeQueryTimes_eq_map]
  simp only [ne_eq, List.map_eq_nil_iff]
  exact executedTrials_ne_nil outcomes i fuel h

theorem executedTrials_length_of_fast (outcomes : ℕ → TrialOutcome) :
    ∀ fuel i, (∀ j, j < fuel → ∃ ms, outcomes (i + j) = .success ms ∧ ms ≤ 120000) →
      (executedTrials outcomes i fuel).length = fuel := by
  intro fuel
  induction fuel with
  | zero => intro i _; rfl
  | succ n ih =>
    intro i h
    obtain ⟨ms, hms, hle⟩ := h 0 (Nat.succ_pos n)
    rw [Nat.add_zero] at hms
    simp only [executedTrials, hms, if_neg (not_lt.mpr hle), List.length_cons]
    rw [ih (i + 1)]
    intro j hj
    obtain ⟨ms', hms', hle'⟩ := h (j + 1) (Nat.succ_lt_succ hj)
    exact ⟨ms', by rw [show i + 1 + j = i + (j + 1) from by omega]; exact hms', hle'⟩

/-- C1 counterexample: with 3 configured trials where trial 0 completes in
100 ms and trial 1 fails (non-timeout), `time_query` returns 30050 ms —
the mean of the recorded values `[100, 60000]` — which is not the
arithmetic mean (100 ms) of the completed trials' wall-clock latencies. -/
theorem time_query_not_mean_of_completed :
    time_query (fun i => if i = 0 then .success 100 else .failure false) 3 = 30050 ∧
    listMean (completedLatencies (fun i => if i = 0 then .success 100 else .failure false) 3)
      = 100 ∧
    (30050 : ℚ) ≠ 100 := by
  refine ⟨?_, ?_, by norm_num⟩
  · have h1 : timeQueryTimes
        (fun i => if i = 0 then TrialOutcome.success 100 else TrialOutcome.failure false) 0 3
        = [100, 60000] := by
      norm_num [timeQueryTimes]
    simp only [time_query, h1]
    rw [if_neg (by decide : ¬([100, 60000] : List ℚ) = [])]
    norm_num
  · have h2 : completedLatencies
        (fun i => if i = 0 then TrialOutcome.success 100 else TrialOutcome.failure false) 3
        = [100] := by
      norm_num [completedLatencies, executedTrials, List.filterMap_cons, List.filterMap_nil]
    simp only [listMean, h2]
    norm_num

/-- C1 (amended): for every trial count `runs ≥ 1`, `time_query` returns
the arithmetic mean of the values recorded for the executed trials, where
a completed trial contributes its measured wall-clock latency in
milliseconds and a failed trial contributes its fallback value (300000 ms
for a timeout-like failure, 60000 ms otherwise). -/
theorem time_query_mean_of_recorded (outcomes : ℕ → TrialOutcome) (runs : ℕ)
    (h : 1 ≤ runs) :
    time_query outcomes runs =
      listMean ((executedTrials outcomes 0 runs).map trialValue) := by
  have hne := timeQueryTimes_ne_nil outcomes 0 runs h
  rw [timeQueryTimes_eq_map] at hne
  simp only [time_query, listMean, timeQueryTimes_eq_map, if_neg hne]

theorem time_query_mean_of_recorded_witness :
    time_query (fun _ => .success 10) 3 =
      listMean ((executedTrials (fun _ => .success 10) 0 3).map trialValue) :=
  time_query_mean_of_recorded (fun _ => .success 10) 3 (by norm_num)

/-- C2 counterexample: when every trial fails with a timeout-like failure,
`time_query` returns the 300000 ms timeout fallback, not the fixed
60000 ms fallback the claim states. -/
theorem time_query_all_fail_timeout :
    time_query (fun _ => TrialOutcome.failure true) 3 = 300000 ∧
    time_query (fun _ => TrialOutcome.failure true) 3 ≠ 60000 := by
  constructor <;> norm_num [time_query, timeQueryTimes]

/-- C2 (amended): if every executed trial fails — equivalently, if the
first trial fails, since a failure stops further trialing — then
`time_query` executes exactly that one trial and returns its fallback
value (300000 ms if the failure is timeout-like, 60000 ms otherwise)
instead of propagating the failure. -/
theorem time_query_all_fail_fallback (outcomes : ℕ → TrialOutcome) (runs : ℕ)
    (b : Bool) (hr : 1 ≤ runs) (h0 : outcomes 0 = .failure b) :
    executedTrials outcomes 0 runs = [.failure b] ∧
    time_query outcomes runs = if b then 300000 else 60000 := by
  obtain ⟨n, rfl⟩ := Nat.exists_eq_add_of_le hr
  rw [Nat.add_comm]
  refine ⟨by simp [executedTrials, h0], ?_⟩
  simp only [time_query, timeQueryTimes, h0]
  cases b <;> norm_num

theorem time_query_all_fail_fallback_witness :
    executedTrials (fun _ => TrialOutcome.failure true) 0 3 = [.failure true] ∧
    time_query (fun _ => TrialOutcome.failure true) 3 = if true then 300000 else 60000 :=
  time_query_all_fail_fallback (fun _ => TrialOutcome.failure true) 3 true
    (by norm_num) rfl

/-- C3 counterexample: a trial measuring 150 seconds (150000 ms) is over
the 2-minute (120000 ms) cutoff, so with 3 configured trials only the
first runs — the claim that a 150-second trial lets all configured trials
run to completion is false. -/
theorem executedTrials_150s_skips :
    (executedTrials (fun _ => TrialOutcome.success 150000) 0 3).length = 1 ∧
    (executedTrials (fun _ => TrialOutcome.success 150000) 0 3).length ≠ 3 := by
  constructor <;> norm_num [executedTrials]

/-- C3 (amended): a trial whose measured execution time is at most
2 minutes (≤ 120000 ms) lets the remaining trials run — if every trial
completes within the cutoff, all configured trials execute — while a trial
taking over 2 minutes (> 120000 ms, which includes 150 seconds = 150000 ms)
causes all remaining trials for that query to be skipped after it. -/
theorem time_query_two_minute_cutoff (outcomes : ℕ → TrialOutcome) (runs : ℕ) :
    ((∀ j, j < runs → ∃ ms, outcomes j = .success ms ∧ ms ≤ 120000) →
      (executedTrials outcomes 0 runs).length = runs) ∧
    (∀ ms, outcomes 0 = .success ms → 120000 < ms → 1 ≤ runs →
      executedTrials outcomes 0 runs = [.success ms]) := by
  constructor
  · intro h
    exact executedTrials_length_of_fast outcomes runs 0 fun j hj => by
      simpa using h j hj
  · intro ms h0 hms hr
    obtain ⟨n, rfl⟩ := Nat.exists_eq_add_of_le hr
    rw [Nat.add_comm]
    simp [executedTrials, h0, hms]

theorem time_query_two_minute_cutoff_witness :
    (executedTrials (fun _ => TrialOutcome.success 100) 0 3).length = 3 ∧
    executedTrials (fun _ => TrialOutcome.success 150000) 0 2
      = [TrialOutcome.success 150000] :=
  ⟨(time_query_two_minute_cutoff (fun _ => .success 100) 3).1
      (fun j _ => ⟨100, rfl, by norm_num⟩),
   (time_query_two_minute_cutoff (fun _ => .success 150000) 2).2 150000 rfl
      (by norm_num) (by norm_num)⟩

/-- C10: for every `runs ≥ 1`, the trial loop appends exactly one value to
`times` per executed trial (the measured latency on success, the
300000/60000 fallback on failure), so `times` is non-empty when the loop
ends and `time_query` returns `sum(times)/len(times)` — the final
all-runs-failed branch returning 60000 is never taken. -/
theorem time_query_times_nonempty (outcomes : ℕ → TrialOutcome) (runs : ℕ)
    (h : 1 ≤ runs) :
    timeQueryTimes outcomes 0 runs = (executedTrials outcomes 0 runs).map trialValue ∧
    timeQueryTimes outcomes 0 runs ≠ [] ∧
    time_query outcomes runs =
      (timeQueryTimes outcomes 0 runs).sum / (timeQueryTimes outcomes 0 runs).length := by
  have hne := timeQueryTimes_ne_nil outcomes 0 runs h
  exact ⟨timeQueryTimes_eq_map outcomes 0 runs, hne, by
    simp only [time_query, if_neg hne]⟩

theorem time_query_times_nonempty_witness :
    timeQueryTimes (fun _ => TrialOutcome.failure false) 0 2
        = (executedTrials (fun _ => TrialOutcome.failure false) 0 2).map trialValue ∧
    timeQueryTimes (fun _ => TrialOutcome.failure false) 0 2 ≠ [] ∧
    time_query (fun _ => TrialOutcome.failure false) 2 =
      (timeQueryTimes (fun _ => TrialOutcome.failure false) 0 2).sum /
        (timeQueryTimes (fun _ => TrialOutcome.failure false) 0 2).length :=
  time_query_times_nonempty (fun _ => TrialOutcome.failure false) 2 (by norm_num)

/-! ## Theorems about the Schema Manager and the PHASE1 loop -/

theorem clearLoop_failure (fails : String → Bool) :
    ∀ (l : List String) (db : DBState), (clearLoop fails db l).2 = false →
      (clearLoop fails db l).1.committed = db.committed ∧
      (clearLoop fails db l).1.pending = db.committed := by
  intro l
  induction l with
  | nil => intro db h; simp [clearLoop, commitTx] at h
  | cons t ts ih =>
    intro db h
    by_cases hf : fails t
    · simp [clearLoop, hf, rollbackTx]
    · simp only [clearLoop, hf, Bool.false_eq_true, if_false] at h ⊢
      exact ih { db with pending := truncateTable db.pending t } h

/-- C5: `clear_tables` is atomic with respect to failure — all TRUNCATEs
run in one transaction, and the except branch rolls it back, so if
clearing fails partway through the table list the committed store is
unchanged and the session's pending state equals the consistent pre-clear
committed state (never partially truncated). -/
theorem clear_tables_rollback_on_failure (fails : String → Bool) (db : DBState)
    (h : (clear_tables fails db).2 = false) :
    (clear_tables fails db).1.committed = db.committed ∧
    (clear_tables fails db).1.pending = db.committed :=
  clearLoop_failure fails clearOrder (rollbackTx db) h

theorem clear_tables_rollback_on_failure_witness :
    (clear_tables (fun t => t == "courses")
        ⟨⟨[1], [2], [3], [4], [5]⟩, ⟨[1], [2], [3], [4], [5]⟩⟩).1.committed
      = (⟨[1], [2], [3], [4], [5]⟩ : TableData) ∧
    (clear_tables (fun t => t == "courses")
        ⟨⟨[1], [2], [3], [4], [5]⟩, ⟨[1], [2], [3], [4], [5]⟩⟩).1.pending
      = (⟨[1], [2], [3], [4], [5]⟩ : TableData) :=
  clear_tables_rollback_on_failure (fun t => t == "courses")
    ⟨⟨[1], [2], [3], [4], [5]⟩, ⟨[1], [2], [3], [4], [5]⟩⟩ (by decide)

theorem getKey_setKey_self (m : List (ℕ × List ℚ)) (s : ℕ) (ts : List ℚ) :
    getKey (setKey m s ts) s = some ts := by
  induction m with
  | nil => simp [setKey, getKey]
  | cons kv rest ih =>
    obtain ⟨k, v⟩ := kv
    by_cases hk : k = s
    · simp [setKey, getKey, hk]
    · simp [setKey, getKey, hk, ih]

theorem getKey_setKey_ne (m : List (ℕ × List ℚ)) (s k : ℕ) (ts : List ℚ)
    (h : k ≠ s) : getKey (setKey m s ts) k = getKey m k := by
  induction m with
  | nil => simp [setKey, getKey, Ne.symm h]
  | cons kv rest ih =>
    obtain ⟨k', v⟩ := kv
    by_cases hk : k' = s
    · subst hk
      simp [setKey, getKey, Ne.symm h]
    · by_cases hk2 : k' = k
      · subst hk2
        simp [setKey, getKey, hk]
      · simp [setKey, getKey, hk, hk2, ih]

theorem phase1Step_getKey_ne (st : Results × DBState) (a : ℕ) (out : ScaleOutcome)
    (s : ℕ) (h : a ≠ s) :
    getKey (phase1Step st a out).1.without_indexes s = getKey st.1.without_indexes s := by
  cases out with
  | ok ts d => simpa [phase1Step] using getKey_setKey_ne st.1.without_indexes a s ts (Ne.symm h)
  | err t => rfl

theorem phase1_foldl_getKey_not_mem (oracle : ℕ → ScaleOutcome) :
    ∀ (l : List ℕ) (st : Results × DBState) (s : ℕ), s ∉ l →
      getKey ((l.foldl (fun st s => phase1Step st s (oracle s)) st).1).without_indexes s
        = getKey st.1.without_indexes s := by
  intro l
  induction l with
  | nil => intro st s _; rfl
  | cons a l ih =>
    intro st s hs
    rw [List.foldl_cons, ih _ s (fun h => hs (List.mem_cons_of_mem a h))]
    exact phase1Step_getKey_ne st a (oracle a) s fun h => hs (h ▸ List.mem_cons_self a l)

theorem phase1_foldl_getKey (oracle : ℕ → ScaleOutcome) :
    ∀ (l : List ℕ) (st : Results × DBState) (s : ℕ), s ∈ l → l.Nodup →
      getKey ((l.foldl (fun st s => phase1Step st s (oracle s)) st).1).without_indexes s
        = match oracle s with
          | .ok ts _ => some ts
          | .err _ => getKey st.1.without_indexes s := by
  intro l
  induction l with
  | nil => intro st s hs _; cases hs
  | cons a l ih =>
    intro st s hs hnd
    rcases List.mem_cons.mp hs with rfl | hmem
    · rw [List.foldl_cons,
        phase1_foldl_getKey_not_mem oracle l _ s (List.nodup_cons.mp hnd).1]
      cases h : oracle s with
      | ok ts d => simp [phase1Step, h, getKey_setKey_self]
      | err t => rfl
    · have hne : a ≠ s := fun h => (List.nodup_cons.mp hnd).1 (h ▸ hmem)
      rw [List.foldl_cons, ih _ s hmem (List.nodup_cons.mp hnd).2]
      cases h : oracle s with
      | ok ts d => rfl
      | err t => simp [phase1Step_getKey_ne st a (oracle a) s hne]

/-- C4 counterexample: the result store is not append-only across a run.
With an entry for (without-indexes, scale 1) already present — as loaded
from `progress.json` at startup — rerunning PHASE1 recomputes scale 1 and
overwrites the existing entry with the new timings, with no explicit
clear. -/
theorem results_overwritten_on_rerun :
    getKey ((phase1 (fun _ => .ok [2, 2, 2, 2, 2] ⟨[], [], [], [], []⟩)
        ({ without_indexes := [(1, [1, 1, 1, 1, 1])], with_indexes := [] },
         ⟨⟨[], [], [], [], []⟩, ⟨[], [], [], [], []⟩⟩)).1).without_indexes 1
      = some [2, 2, 2, 2, 2] ∧
    getKey ((phase1 (fun _ => .ok [2, 2, 2, 2, 2] ⟨[], [], [], [], []⟩)
        ({ without_indexes := [(1, [1, 1, 1, 1, 1])], with_indexes := [] },
         ⟨⟨[], [], [], [], []⟩, ⟨[], [], [], [], []⟩⟩)).1).without_indexes 1
      ≠ some [1, 1, 1, 1, 1] := by
  have h : getKey ((phase1 (fun _ => .ok [2, 2, 2, 2, 2] ⟨[], [], [], [], []⟩)
      ({ without_indexes := [(1, [1, 1, 1, 1, 1])], with_indexes := [] },
       ⟨⟨[], [], [], [], []⟩, ⟨[], [], [], [], []⟩⟩)).1).without_indexes 1
      = some [2, 2, 2, 2, 2] := rfl
  refine ⟨h, ?_⟩
  rw [h]
  simp only [ne_eq, Option.some.injEq, List.cons.injEq]
  norm_num

/-- C4 (amended): `run_performance_tests` assigns the timings to its
(index-state, scale) key unconditionally, so within a run the PHASE1 loop
writes each key at most once — the final entry of a scale is the timings
of that scale's (single) successful rerun — but an entry already present
at the start of the loop, such as one loaded from the persisted progress
file, is overwritten when its scale reruns successfully, and is retained
only when that scale's rerun fails. -/
theorem phase1_getKey_final (oracle : ℕ → ScaleOutcome) (st : Results × DBState)
    (s : ℕ) (hs : s ∈ phase1Scales) :
    getKey ((phase1 oracle st).1).without_indexes s =
      match oracle s with
      | .ok ts _ => some ts
      | .err _ => getKey st.1.without_indexes s :=
  phase1_foldl_getKey oracle phase1Scales st s hs (by decide)

theorem phase1_getKey_final_witness :
    getKey ((phase1 (fun _ => .ok [3, 3, 3, 3, 3] ⟨[], [], [], [], []⟩)
        (emptyResults, ⟨⟨[], [], [], [], []⟩, ⟨[], [], [], [], []⟩⟩)).1).without_indexes 2
      = some [3, 3, 3, 3, 3] :=
  phase1_getKey_final (fun _ => .ok [3, 3, 3, 3, 3] ⟨[], [], [], [], []⟩)
    (emptyResults, ⟨⟨[], [], [], [], []⟩, ⟨[], [], [], [], []⟩⟩) 2 (by decide)

/-- C6: in PHASE1, a failure during one scale's generation or timing is
caught by the loop's except branch — the step is a total function whose
failure case leaves the results unchanged and rolls the in-flight
transaction back to the committed state — and the loop advances to the
next scale: starting from the empty startup results, every scale of 1..4
whose run succeeds has its entry, and a failed scale's entry is simply
absent. -/
theorem phase1_failure_caught_and_continues (oracle : ℕ → ScaleOutcome)
    (db : DBState) (s : ℕ) (hs : s ∈ phase1Scales) :
    (getKey ((phase1 oracle (emptyResults, db)).1).without_indexes s =
      match oracle s with
      | .ok ts _ => some ts
      | .err _ => none) ∧
    (∀ (st : Results × DBState) (t : TableData),
      (phase1Step st s (.err t)).1 = st.1 ∧
      (phase1Step st s (.err t)).2 = rollbackTx { st.2 with pending := t } ∧
      (phase1Step st s (.err t)).2.pending = st.2.committed) := by
  refine ⟨?_, fun st t => ⟨rfl, rfl, rfl⟩⟩
  have h := phase1_foldl_getKey oracle phase1Scales (emptyResults, db) s hs (by decide)
  cases ho : oracle s with
  | ok ts d => rw [phase1]; rw [ho] at h; exact h
  | err t => rw [phase1]; rw [ho] at h; exact h

theorem phase1_failure_caught_and_continues_witness :
    (getKey ((phase1 (fun s => if s = 2 then .err ⟨[], [], [], [], []⟩
          else .ok [7, 7, 7, 7, 7] ⟨[], [], [], [], []⟩)
        (emptyResults, ⟨⟨[], [], [], [], []⟩, ⟨[], [], [], [], []⟩⟩)).1).without_indexes 2
      = none) ∧
    (∀ (st : Results × DBState) (t : TableData),
      (phase1Step st 2 (.err t)).1 = st.1 ∧
      (phase1Step st 2 (.err t)).2 = rollbackTx { st.2 with pending := t } ∧
      (phase1Step st 2 (.err t)).2.pending = st.2.committed) :=
  phase1_failure_caught_and_continues
    (fun s => if s = 2 then .err ⟨[], [], [], [], []⟩
      else .ok [7, 7, 7, 7, 7] ⟨[], [], [], [], []⟩)
    ⟨⟨[], [], [], [], []⟩, ⟨[], [], [], [], []⟩⟩ 2 (by decide)

/-! ## Theorems about `create_indexes` -/

theorem mem_createIndexIfNotExists (present : List String) (n m : String)
    (h : n ∈ present) : n ∈ createIndexIfNotExists present m := by
  unfold createIndexIfNotExists
  by_cases hm : m ∈ present
  · simpa [hm]
  · simp [hm, List.mem_append, h]

theorem mem_foldl_createIndex (l : List String) :
    ∀ (present : List String) (n : String), n ∈ present →
      n ∈ l.foldl createIndexIfNotExists present := by
  induction l with
  | nil => intro present n h; exact h
  | cons a l ih =>
    intro present n h
    exact ih _ n (mem_createIndexIfNotExists present n a h)

theorem names_mem_foldl_createIndex (l : List String) :
    ∀ (present : List String) (n : String), n ∈ l →
      n ∈ l.foldl createIndexIfNotExists present := by
  induction l with
  | nil => intro present n h; cases h
  | cons a l ih =>
    intro present n h
    rcases List.mem_cons.mp h with rfl | hmem
    · refine mem_foldl_createIndex l _ n ?_
      unfold createIndexIfNotExists
      by_cases hm : n ∈ present
      · simp [hm]
      · simp [hm]
    · exact ih _ n hmem

theorem foldl_createIndex_fixed (l : List String) :
    ∀ present : List String, (∀ n ∈ l, n ∈ present) →
      l.foldl createIndexIfNotExists present = present := by
  induction l with
  | nil => intro present _; rfl
  | cons a l ih =>
    intro present h
    rw [List.foldl_cons]
    have ha : createIndexIfNotExists present a = present := by
      unfold createIndexIfNotExists
      simp [h a (List.mem_cons_self a l)]
    rw [ha]
    exact ih present fun n hn => h n (List.mem_cons_of_mem a hn)

/-- C8: calling `create_indexes` twice in succession is a no-op the second
time — every statement is `CREATE INDEX IF NOT EXISTS`, so the second call
raises no error and leaves exactly the same index set present as after the
first call, a set containing all six named indexes. -/
theorem create_indexes_idempotent (present : List String) :
    create_indexes (create_indexes present) = create_indexes present ∧
    ∀ n ∈ indexNames, n ∈ create_indexes present := by
  constructor
  · exact foldl_createIndex_fixed indexNames _
      fun n hn => names_mem_foldl_createIndex indexNames present n hn
  · exact fun n hn => names_mem_foldl_createIndex indexNames present n hn

theorem create_indexes_idempotent_witness :
    create_indexes (create_indexes []) = create_indexes [] ∧
    "idx_courses_teacher_id" ∈ create_indexes [] :=
  ⟨(create_indexes_idempotent []).1,
   (create_indexes_idempotent []).2 "idx_courses_teacher_id" (by decide)⟩

/-! ## Theorems about the Synthetic Data Generator -/

theorem randint_le (a b seed : ℕ) (h : a ≤ b) :
    a ≤ randint a b seed ∧ randint a b seed ≤ b := by
  unfold randint
  have : seed % (b - a + 1) < b - a + 1 := Nat.mod_lt seed (by omega)
  omega

theorem getD_mem {α : Type} (d : α) :
    ∀ (l : List α) (i : ℕ), i < l.length → l.getD i d ∈ l := by
  intro l
  induction l with
  | nil => intro i h; simp at h
  | cons a t ih =>
    intro i h
    cases i with
    | zero => simp [List.getD_cons_zero]
    | succ i =>
      rw [List.getD_cons_succ]
      exact List.mem_cons_of_mem a (ih i (by simpa using h))

theorem choiceD_mem (l : List String) (seed : ℕ) (h : l ≠ []) :
    choiceD l seed ∈ l := by
  unfold choiceD
  exact getD_mem "" l _ (Nat.mod_lt seed (List.length_pos.mpr h))

theorem getD_not_mem_eraseIdx :
    ∀ (l : List ℕ) (i : ℕ), l.Nodup → i < l.length → l.getD i 0 ∉ l.eraseIdx i := by
  intro l
  induction l with
  | nil => intro i _ h; simp at h
  | cons a t ih =>
    intro i hnd h
    cases i with
    | zero =>
      simpa [List.getD_cons_zero, List.eraseIdx] using (List.nodup_cons.mp hnd).1
    | succ i =>
      rw [List.getD_cons_succ, List.eraseIdx]
      intro hmem
      rcases List.mem_cons.mp hmem with heq | hmem'
      · exact (List.nodup_cons.mp hnd).1
          (heq ▸ getD_mem 0 t i (by simpa using h))
      · exact ih i (List.nodup_cons.mp hnd).2 (by simpa using h) hmem'

theorem sampleGo_spec (seedStream : ℕ → ℕ) :
    ∀ (k : ℕ) (pop : List ℕ) (j : ℕ), pop.Nodup → k ≤ pop.length →
      (sampleGo seedStream pop k j).length = k ∧
      (sampleGo seedStream pop k j).Nodup ∧
      ∀ x ∈ sampleGo seedStream pop k j, x ∈ pop := by
  intro k
  induction k with
  | zero => intro pop j _ _; simp [sampleGo]
  | succ k ih =>
    intro pop j hnd hk
    have hpos : 0 < pop.length := by omega
    have hne : ¬pop.length = 0 := by omega
    have hidx : seedStream j % pop.length < pop.length := Nat.mod_lt _ hpos
    have herase : (pop.eraseIdx (seedStream j % pop.length)).length = pop.length - 1 := by
      rw [List.length_eraseIdx, if_pos hidx]
    have hsub := List.eraseIdx_sublist pop (seedStream j % pop.length)
    obtain ⟨ihlen, ihnd, ihmem⟩ :=
      ih (pop.eraseIdx (seedStream j % pop.length)) (j + 1) (hsub.nodup hnd) (by omega)
    simp only [sampleGo, if_neg hne]
    refine ⟨by simp [ihlen], List.nodup_cons.mpr ⟨?_, ihnd⟩, ?_⟩
    · intro hmem
      exact getD_not_mem_eraseIdx pop _ hnd hidx (ihmem _ hmem)
    · intro x hx
      rcases List.mem_cons.mp hx with rfl | hx'
      · exact getD_mem 0 pop _ hidx
      · exact hsub.subset (ihmem x hx')

theorem enrollRows_map_course (sid : ℕ) (semSeed gradeSeed : ℕ → ℕ) :
    ∀ (cs : List ℕ) (j : ℕ),
      (enrollRows sid semSeed gradeSeed cs j).map Enrollment.course_id = cs := by
  intro cs
  induction cs with
  | nil => intro j; rfl
  | cons c cs ih => intro j; simp [enrollRows, ih]

theorem enrollRows_mem (sid : ℕ) (semSeed gradeSeed : ℕ → ℕ) :
    ∀ (cs : List ℕ) (j : ℕ), ∀ e ∈ enrollRows sid semSeed gradeSeed cs j,
      e.student_id = sid ∧ e.course_id ∈ cs ∧ e.grade ≤ 100 ∧ e.semester ∈ semesters := by
  intro cs
  induction cs with
  | nil => intro j e he; cases he
  | cons c cs ih =>
    intro j e he
    rcases List.mem_cons.mp he with rfl | he'
    · refine ⟨rfl, List.mem_cons_self c cs, (randint_le 0 100 _ (by omega)).2,
        choiceD_mem semesters _ (by simp [semesters])⟩
    · obtain ⟨h1, h2, h3, h4⟩ := ih (j + 1) e he'
      exact ⟨h1, List.mem_cons_of_mem c h2, h3, h4⟩

/-- C7: for every student generated by
`generate_students_and_enrollments`, given that the course catalog holds
pairwise-distinct course ids and at least 10 of them (the script generates
200), the enrollments created for that student reference between 5 and 10
pairwise-distinct course ids drawn from the existing courses (sampling
without replacement), and every enrollment carries that student's id, a
grade in [0, 100], and a semester from the fixed 4-element semester
set. -/
theorem studentEnrollments_spec (course_ids : List ℕ) (sid kSeed : ℕ)
    (sampleSeed semSeed gradeSeed : ℕ → ℕ)
    (hnd : course_ids.Nodup) (hlen : 10 ≤ course_ids.length) :
    5 ≤ (studentEnrollments course_ids sid kSeed sampleSeed semSeed gradeSeed).length ∧
    (studentEnrollments course_ids sid kSeed sampleSeed semSeed gradeSeed).length ≤ 10 ∧
    ((studentEnrollments course_ids sid kSeed sampleSeed semSeed gradeSeed).map
      Enrollment.course_id).Nodup ∧
    ∀ e ∈ studentEnrollments course_ids sid kSeed sampleSeed semSeed gradeSeed,
      e.student_id = sid ∧ e.course_id ∈ course_ids ∧
      e.grade ≤ 100 ∧ e.semester ∈ semesters := by
  obtain ⟨hk5, hk10⟩ := randint_le 5 10 kSeed (by omega)
  obtain ⟨hslen, hsnd, hsmem⟩ := sampleGo_spec sampleSeed (randint 5 10 kSeed)
    course_ids 0 hnd (by omega)
  unfold studentEnrollments
  have hmap := enrollRows_map_course sid semSeed gradeSeed
    (sample course_ids (randint 5 10 kSeed) sampleSeed) 0
  have hlen2 : (enrollRows sid semSeed gradeSeed
      (sample course_ids (randint 5 10 kSeed) sampleSeed) 0).length
      = randint 5 10 kSeed := by
    rw [← List.length_map _ Enrollment.course_id, hmap]
    exact hslen
  refine ⟨by omega, by omega, by rw [hmap]; exact hsnd, ?_⟩
  intro e he
  obtain ⟨h1, h2, h3, h4⟩ := enrollRows_mem sid semSeed gradeSeed _ 0 e he
  exact ⟨h1, hsmem _ h2, h3, h4⟩

theorem studentEnrollments_spec_witness :
    5 ≤ (studentEnrollments (List.range 20) 1 0 (fun _ => 0) (fun _ => 0)
        (fun _ => 0)).length ∧
    (studentEnrollments (List.range 20) 1 0 (fun _ => 0) (fun _ => 0)
        (fun _ => 0)).length ≤ 10 ∧
    ((studentEnrollments (List.range 20) 1 0 (fun _ => 0) (fun _ => 0)
        (fun _ => 0)).map Enrollment.course_id).Nodup ∧
    ∀ e ∈ studentEnrollments (List.range 20) 1 0 (fun _ => 0) (fun _ => 0)
        (fun _ => 0),
      e.student_id = 1 ∧ e.course_id ∈ List.range 20 ∧
      e.grade ≤ 100 ∧ e.semester ∈ semesters :=
  studentEnrollments_spec (List.range 20) 1 0 (fun _ => 0) (fun _ => 0)
    (fun _ => 0) (List.nodup_range 20) (by simp)

/-! ## Theorems about student email uniqueness -/

theorem digitChar_isDigit (k : ℕ) (h : k < 10) : (Char.ofNat (48 + k)).isDigit = true := by
  interval_cases k <;> decide

theorem digitChar_toNat (k : ℕ) (h : k < 10) : (Char.ofNat (48 + k)).toNat = 48 + k := by
  interval_cases k <;> decide

theorem decimalRender_digits (n : ℕ) : ∀ c ∈ decimalRender n, c.isDigit = true := by
  induction n using Nat.strong_induction_on with
  | _ n ih =>
    rw [decimalRender]
    by_cases h : n < 10
    · simp only [dif_pos h, List.mem_singleton]
      rintro c rfl
      exact digitChar_isDigit n h
    · simp only [dif_neg h, List.mem_append, List.mem_singleton]
      rintro c (hc | rfl)
      · exact ih (n / 10) (Nat.div_lt_self (by omega) (by omega)) c hc
      · exact digitChar_isDigit (n % 10) (Nat.mod_lt _ (by omega))

theorem parse_decimalRender_aux (n : ℕ) :
    ∀ acc : ℕ, (decimalRender n).foldl (fun acc c => acc * 10 + (c.toNat - 48)) acc
      = acc * 10 ^ (decimalRender n).length + n := by
  induction n using Nat.strong_induction_on with
  | _ n ih =>
    intro acc
    rw [decimalRender]
    by_cases h : n < 10
    · simp only [dif_pos h, List.foldl_cons, List.foldl_nil, List.length_singleton]
      rw [digitChar_toNat n h, pow_one]
      omega
    · simp only [dif_neg h, List.foldl_append, List.foldl_cons, List.foldl_nil,
        List.length_append, List.length_singleton]
      rw [ih (n / 10) (Nat.div_lt_self (by omega) (by omega)) acc,
        digitChar_toNat (n % 10) (Nat.mod_lt _ (by omega)), pow_succ, ← Nat.mul_assoc]
      generalize acc * 10 ^ (decimalRender (n / 10)).length = A
      omega

theorem parseDigits_decimalRender (n : ℕ) : parseDigits (decimalRender n) = n := by
  have h := parse_decimalRender_aux n 0
  simpa [parseDigits] using h

theorem takeWhile_append_stop (p : Char → Bool) (b : Char) (hb : p b = false) :
    ∀ (a t : List Char), (∀ c ∈ a, p c = true) →
      (a ++ b :: t).takeWhile p = a := by
  intro a
  induction a with
  | nil =>
    intro t _
    simp [List.takeWhile_cons, hb]
  | cons x xs ih =>
    intro t h
    have hx : p x = true := h x (List.mem_cons_self x xs)
    simp only [List.cons_append, List.takeWhile_cons, hx, if_true]
    rw [ih t fun c hc => h c (List.mem_cons_of_mem x hc)]

theorem email_decode_general (pre D suf : List Char) (hsuf : suf.length = 23)
    (hD : ∀ c ∈ D, Char.isDigit c = true) :
    (((pre ++ ['.'] ++ D ++ suf).reverse.drop 23).takeWhile Char.isDigit).reverse = D := by
  simp only [List.reverse_append, List.reverse_singleton, List.singleton_append]
  rw [List.drop_left' (by rw [List.length_reverse]; exact hsuf)]
  rw [takeWhile_append_stop Char.isDigit '.' (by decide) D.reverse
      (pre.reverse) (fun c hc => hD c (List.mem_reverse.mp hc)),
    List.reverse_reverse]

theorem seqOfEmail_studentEmail (f l : String) (i : ℕ) :
    seqOfEmail (studentEmail f l i) = i := by
  unfold seqOfEmail studentEmail
  have hd : (f ++ "." ++ l ++ "." ++ natStr i ++ "@student.university.edu").data
      = (f.data ++ ['.'] ++ l.data) ++ ['.'] ++ decimalRender i
        ++ "@student.university.edu".data := by
    simp [String.data_append, natStr]
  rw [hd,
    email_decode_general (f.data ++ ['.'] ++ l.data) (decimalRender i)
      ("@student.university.edu".data) rfl
      (fun c hc => decimalRender_digits i c hc)]
  exact parseDigits_decimalRender i

theorem studentEmail_inj (f1 l1 f2 l2 : String) (i j : ℕ)
    (h : studentEmail f1 l1 i = studentEmail f2 l2 j) : i = j := by
  have := congrArg seqOfEmail h
  rwa [seqOfEmail_studentEmail, seqOfEmail_studentEmail] at this

theorem batchSeqNums_eq_range' :
    ∀ (d start num : ℕ), num - start ≤ d →
      batchSeqNums start num = List.range' start (num - start) := by
  intro d
  induction d with
  | zero =>
    intro start num h
    rw [batchSeqNums, dif_neg (by omega)]
    rw [show num - start = 0 from by omega]
    rfl
  | succ d ih =>
    intro start num h
    rw [batchSeqNums]
    by_cases hlt : start < num
    · rw [dif_pos hlt, ih (start + 1000) num (by omega)]
      by_cases hcap : start + 1000 ≤ num
      · rw [show min (start + 1000) num - start = 1000 from by omega]
        have happ := List.range'_append start 1000 (num - (start + 1000)) 1
        rw [Nat.one_mul] at happ
        rw [happ, show num - (start + 1000) + 1000 = num - start from by omega]
      · rw [show min (start + 1000) num - start = num - start from by omega,
          show num - (start + 1000) = 0 from by omega]
        simp
    · rw [dif_neg hlt, show num - start = 0 from by omega]
      rfl

theorem studentSeqNums_eq_range (num : ℕ) : studentSeqNums num = List.range num := by
  rw [studentSeqNums, batchSeqNums_eq_range' num 0 num (by omega), Nat.sub_zero,
    List.range_eq_range']

/-- C9: within a single `generate_students_and_enrollments(num_students)`
call, the batch loop runs the sequence number `i` exactly through
`0, 1, ..., num_students - 1` across batch boundaries, and because each
email embeds its sequence number as the digit run before the fixed domain
suffix, every two distinct generated students have distinct email
addresses, whatever faker names they received. -/
theorem studentEmails_unique (firstN lastN : ℕ → String) (num : ℕ) :
    studentSeqNums num = List.range num ∧
    (studentEmails firstN lastN num).Nodup := by
  refine ⟨studentSeqNums_eq_range num, ?_⟩
  unfold studentEmails
  rw [studentSeqNums_eq_range num]
  refine (List.nodup_range num).map_on ?_
  intro i _ j _ hij
  exact studentEmail_inj (firstN i) (lastN i) (firstN j) (lastN j) i j hij
